import Mathlib

/-!
# Verification of the navc incremental indexing core

This file gives a shallow embedding in Lean 4 of the two source files of the
navc daemon (`files.go` and `parse.go`) and proves or refutes the claims of
the specification against it.

* The Go string and path helpers used by `parse.go` (`strings.Fields`,
  `strings.HasPrefix`, `strings.Replace`, `filepath.Clean`, `filepath.IsAbs`,
  `filepath.Abs`, `filepath.Rel`) are embedded as executable functions over
  `List Char` / `String`, element-for-element faithful to the Go library's
  lexical path algorithms.
* `parse.go` is embedded by `fixPaths`, `fixCompDirArg`, `getCompArgs`,
  `newParser`, `getSymbolFromCursor` and `Parse`.  Calls of `log.Panic` and
  Go's runtime out-of-range panic are represented by `Option`/`none`.
  The process working directory (`os.Getwd`) is an explicit parameter `cwd`.
* The scheduler of `files.go` is embedded by `queueFileToParse` and
  `doneFileToParse` acting on a `SchedState`, together with a step relation
  that reflects the rendezvous semantics of the unbuffered `parseFile` /
  `doneFile` channels and the fixed pool of `nIndexingThreads` workers.
-/

set_option autoImplicit false

namespace Navc

/-! ## Go string helpers (strings.Fields, strings.HasPrefix, strings.Replace) -/

/-- Split a character list at every character satisfying `p`, keeping empty
pieces. `splitWhen p "a  b" = ["a", "", "b"]` (as char lists). -/
def splitWhen (p : Char → Bool) : List Char → List (List Char)
  | [] => [[]]
  | c :: cs =>
    let r := splitWhen p cs
    if p c then [] :: r
    else
      match r with
      | x :: xs => (c :: x) :: xs
      | [] => [[c]]

/-- Go `strings.Fields`: the whitespace-separated non-empty tokens of `s`. -/
def goFields (s : String) : List String :=
  ((splitWhen (fun c => c.isWhitespace) s.data).filter (fun l => l ≠ [])).map
    (fun l => (⟨l⟩ : String))

/-- Test whether char list `p` is an initial segment of `s`. -/
def charsHavePre : List Char → List Char → Bool
  | [], _ => true
  | _ :: _, [] => false
  | p :: ps, c :: cs => p = c && charsHavePre ps cs

/-- Go `strings.HasPrefix`. -/
def hasPre (p s : String) : Bool :=
  charsHavePre p.data s.data

/-- Replace the first occurrence of `old` in the char list (helper for
Go `strings.Replace(s, old, new, 1)`). -/
def replaceFirstChars (old new : List Char) : List Char → List Char
  | [] => []
  | c :: cs =>
    if charsHavePre old (c :: cs) then new ++ List.drop old.length (c :: cs)
    else c :: replaceFirstChars old new cs

/-- Go `strings.Replace(s, old, new, 1)`: replace the first occurrence of
`old` by `new` (for empty `old`, Go inserts `new` before `s`). -/
def stringsReplace1 (s old new : String) : String :=
  if old.data = [] then ⟨new.data ++ s.data⟩
  else ⟨replaceFirstChars old.data new.data s.data⟩

/-! ## Go path helpers (path/filepath: IsAbs, Clean, Abs, Rel) -/

/-- Go `filepath.IsAbs` on unix: the path begins with `/`. -/
def goIsAbs (path : String) : Bool :=
  hasPre "/" path

/-- The `/`-separated components of a path, with empty components and `.`
components removed (the starting point of Go's `Clean` element scan). -/
def pathComps (path : String) : List String :=
  ((splitWhen (fun c => c = '/') path.data).map (fun l => (⟨l⟩ : String))).filter
    (fun c => c ≠ "" ∧ c ≠ ".")

/-- One step of the element stack of Go's `filepath.Clean`: `..` pops a
previous element, except at the root of a rooted path (dropped) or at the
front of a relative path (kept). -/
def cleanStep (rooted : Bool) (acc : List String) (c : String) : List String :=
  if c = ".." then
    match acc with
    | [] => if rooted then [] else [".."]
    | top :: rest => if top = ".." then c :: acc else rest
  else c :: acc

/-- The element stack of Go's `filepath.Clean`; the result is in reverse
order. -/
def cleanStack (rooted : Bool) (comps : List String) : List String :=
  comps.foldl (cleanStep rooted) []

/-- Rootedness and cleaned element list of a path, per Go's `filepath.Clean`. -/
def cleanParts (path : String) : Bool × List String :=
  (goIsAbs path, (cleanStack (goIsAbs path) (pathComps path)).reverse)

/-- Join path elements with `/`. -/
def interSlash : List String → String
  | [] => ""
  | [x] => x
  | x :: xs => x ++ "/" ++ interSlash xs

/-- Go `filepath.Clean`, by the Plan 9 lexical rules: iterated elements,
`.` and empty elements dropped, `..` resolved against preceding elements,
`..` kept at the front of relative paths and dropped at the root of rooted
ones; the empty path cleans to `.`. -/
def goClean (path : String) : String :=
  match cleanParts path with
  | (rooted, elems) =>
    if rooted then "/" ++ interSlash elems
    else if elems = [] then "." else interSlash elems

/-- Go `filepath.Abs` with the working directory `wd` made explicit:
an absolute path is cleaned, a relative one is joined onto `wd`
(`filepath.Join` cleans the concatenation). -/
def goAbs (wd path : String) : String :=
  if goIsAbs path then goClean path else goClean (wd ++ "/" ++ path)

/-- Drop the common leading elements of two element lists, returning the two
remainders (the element scan of Go's `filepath.Rel`). -/
def dropCommon : List String → List String → List String × List String
  | x :: xs, y :: ys => if x = y then dropCommon xs ys else (x :: xs, y :: ys)
  | xs, ys => (xs, ys)

/-- Go `filepath.Rel basepath targpath` (unix, no volumes), element-wise:
equal cleaned paths give `.`; mixing rooted and relative paths is an error
(`none`); otherwise the common prefix is stripped, an error is reported when
the remaining base begins with `..`, and the result climbs out of the
remaining base elements and descends into the remaining target elements. -/
def goRel (basepath targpath : String) : Option String :=
  if goClean targpath = goClean basepath then some "."
  else if (cleanParts basepath).1 ≠ (cleanParts targpath).1 then none
  else if (dropCommon (cleanParts basepath).2 (cleanParts targpath).2).1.head? = some ".."
    then none
  else
    some (interSlash
      (List.replicate (dropCommon (cleanParts basepath).2 (cleanParts targpath).2).1.length ".."
        ++ (dropCommon (cleanParts basepath).2 (cleanParts targpath).2).2))

/-! ## parse.go: compilation argument resolution -/

/-- One entry of a `compile_commands.json` database (parse.go lines 52-56). -/
structure compArgs where
  Directory : String
  Command : String
  File : String
deriving DecidableEq

/-- parse.go lines 58-78, `fixPaths`: if the input root `path` is absolute the
entries are left untouched; otherwise every entry's `File` is replaced by its
path relative to the working directory `cwd` (Go `os.Getwd`) and cleaned.
`log.Panic` on a `filepath.Rel` error is `none`. -/
def fixPaths (cas : List compArgs) (path cwd : String) : Option (List compArgs) :=
  if goIsAbs path then some cas
  else
    cas.mapM (fun ca =>
      match goRel cwd ca.File with
      | none => none
      | some rel => some { ca with File := goClean rel })

/-- parse.go lines 80-107, `fixCompDirArg`: rewrite one `-I` directory to the
convention of the input root `path`.  `cwd` is the process working directory
(Go `os.Getwd`); `log.Panic` on a `filepath.Rel` error is `none`. -/
def fixCompDirArg (argDir path cwd : String) : Option String :=
  if goIsAbs path then
    if goIsAbs argDir then some argDir
    else some (goClean (goAbs cwd argDir))
  else if goIsAbs argDir then
    match goRel cwd argDir with
    | none => none
    | some rel => some (goClean rel)
  else some (goClean (path ++ "/" ++ argDir))

/-- The token loop of parse.go lines 114-129 (`for i, arg := range argsList`).
Go's `argsList[i+1]` is the head of the remaining list; when the list is
exhausted the access is out of range, a runtime panic, embedded as `none`. -/
def getCompArgsGo (path cwd : String) : List String → List String → Option (List String)
  | [], args => some args
  | arg :: rest, args =>
    if arg = "-D" then
      match rest with
      | [] => none
      | nxt :: _ => getCompArgsGo path cwd rest (args ++ [arg, nxt])
    else if hasPre "-D" arg then
      getCompArgsGo path cwd rest (args ++ [arg])
    else if arg = "-I" then
      match rest with
      | [] => none
      | nxt :: _ =>
        match fixCompDirArg nxt path cwd with
        | none => none
        | some argDir => getCompArgsGo path cwd rest (args ++ ["-I", argDir])
    else if hasPre "-I" arg then
      match fixCompDirArg (stringsReplace1 arg "-I" "") path cwd with
      | none => none
      | some argDir => getCompArgsGo path cwd rest (args ++ ["-I", argDir])
    else getCompArgsGo path cwd rest args

/-- parse.go lines 109-132, `getCompArgs`: extract the `-D` and `-I` arguments
of a raw command string, rewriting `-I` directories with `fixCompDirArg`. -/
def getCompArgs (command path cwd : String) : Option (List String) :=
  getCompArgsGo path cwd (goFields command) []

/-- Outcome of opening and JSON-decoding `path + "/compile_commands.json"`
for one input root (parse.go lines 139-152): the file may be missing (any
`os.Open` error that is not a permission error), unreadable for permissions,
malformed JSON, or a decoded entry list. -/
inductive openResult where
  | missing
  | permDenied
  | malformed
  | decoded (cas : List compArgs)
deriving DecidableEq

/-- parse.go lines 134-163, `newParser`: fold over the input roots, reading
each root's compilation database.  A missing file is skipped (`continue`), a
permission error or a JSON decode error is `log.Panic` (`none`), and the
decoded entries are path-fixed and indexed by file name (a Go map write
`ret.cas[ca.File] = ...`; later writes win, so entries are prepended and
lookups take the first match).  `fs` maps a root to the outcome of reading
its database file; `cwd` is the process working directory. -/
def newParser (fs : String → openResult) (cwd : String) (inputDirs : List String) :
    Option (List (String × List String)) :=
  inputDirs.foldlM
    (fun acc path =>
      match fs path with
      | .permDenied => none
      | .missing => some acc
      | .malformed => none
      | .decoded cas =>
        match fixPaths cas path cwd with
        | none => none
        | some cas2 =>
          cas2.foldlM
            (fun m ca =>
              match getCompArgs ca.Command path cwd with
              | none => none
              | some args => some ((ca.File, args) :: m))
            acc)
    []

/-- parse.go lines 187-190: the argument list used when parsing `file` —
the map entry for `file`, or the empty list when there is none. -/
def parseArgs (cas : List (String × List String)) (file : String) : List String :=
  (List.lookup file cas).getD []

/-! ## parse.go: cursor visit and snapshot construction -/

/-- A symbol location (symbols-db's `SymbolLocReq`): file, line, column. -/
structure SymbolLocReq where
  File : String
  Line : Nat
  Col : Nat
deriving DecidableEq

/-- A symbol record: name, USR and location (symbols-db's `symbolInfo`). -/
structure symbolInfo where
  name : String
  usr : String
  loc : SymbolLocReq
deriving DecidableEq

/-- A translation-unit snapshot.  `File` and `Mtime` are set at creation
(parse.go line 194); the record lists are filled by the visitor.

Modelled from the spec: the snapshot type `symbolsTUDB` lives in
symbols-db.go, which is not among the given sources; the spec (§3) describes
it as "file path, file modification timestamp at parse time, list of
(declaration, optional definition) pairs, list of (use-site, declaration,
is-call-flag) pairs, list of (inclusion-directive-name, included-file)
pairs". -/
structure symbolsTUDB where
  File : String
  Mtime : Int
  decls : List symbolInfo
  declDefs : List (symbolInfo × symbolInfo)
  uses : List (symbolInfo × Option symbolInfo × Bool)
  headers : List (String × String)
deriving DecidableEq

/-- Modelled from the spec: `newSymbolsTUDB` (symbols-db.go, outside the given
sources) creates an empty snapshot for `file` with its modification time. -/
def newSymbolsTUDB (file : String) (mtime : Int) : symbolsTUDB :=
  ⟨file, mtime, [], [], [], []⟩

/-- Modelled from the spec: `InsertSymbolDecl` (symbols-db.go, outside the
given sources) records a declaration-only symbol in the snapshot. -/
def symbolsTUDB.InsertSymbolDecl (t : symbolsTUDB) (cur : symbolInfo) : symbolsTUDB :=
  { t with decls := t.decls ++ [cur] }

/-- Modelled from the spec: `InsertSymbolDeclWithDef` (symbols-db.go, outside
the given sources) records a declaration together with its definition. -/
def symbolsTUDB.InsertSymbolDeclWithDef (t : symbolsTUDB) (cur definiens : symbolInfo) :
    symbolsTUDB :=
  { t with declDefs := t.declDefs ++ [(cur, definiens)] }

/-- Modelled from the spec: `InsertSymbolUse` (symbols-db.go, outside the
given sources) records a use site, the used declaration (possibly null) and
the is-call flag. -/
def symbolsTUDB.InsertSymbolUse (t : symbolsTUDB) (cur : symbolInfo)
    (dec : Option symbolInfo) (isCall : Bool) : symbolsTUDB :=
  { t with uses := t.uses ++ [(cur, dec, isCall)] }

/-- Modelled from the spec: `InsertHeader` (symbols-db.go, outside the given
sources) records an inclusion-directive edge. -/
def symbolsTUDB.InsertHeader (t : symbolsTUDB) (headName incFile : String) : symbolsTUDB :=
  { t with headers := t.headers ++ [(headName, incFile)] }

/-- The observable data of one clang cursor: null flag, spelling, USR, and
defining source location (file name, line, column) as returned by
`cursor.Location().FileLocation()`. -/
structure CursorData where
  isNull : Bool
  spelling : String
  usr : String
  file : String
  line : Nat
  col : Nat
deriving DecidableEq

/-- The cursor kinds distinguished by the switch of parse.go lines 219-249;
`Other` stands for every kind the switch ignores. -/
inductive CursorKind where
  | FunctionDecl | StructDecl | FieldDecl | TypedefDecl | EnumDecl | EnumConstantDecl
  | MacroDefinition | VarDecl | ParmDecl | CallExpr
  | DeclRefExpr | TypeRef | MemberRefExpr | MacroExpansion
  | InclusionDirective | Other
deriving DecidableEq

mutual
/-- A cursor of the AST oracle's cursor tree: its own data, kind, the data of
`cursor.Definition()` and `cursor.Referenced()`, the included file of an
inclusion directive, and its children (visited on `ChildVisit_Recurse`). -/
inductive Cursor where
  | mk (data : CursorData) (kind : CursorKind) (definitionOf referencedOf : CursorData)
      (includedFile : String) (children : CursorList)

/-- A list of sibling cursors. -/
inductive CursorList where
  | nil
  | cons (c : Cursor) (cs : CursorList)
end

/-- The data of a cursor. -/
def Cursor.data : Cursor → CursorData
  | .mk d _ _ _ _ _ => d

/-- parse.go lines 165-181, `getSymbolFromCursor`: `nil` for a null cursor,
else the symbol record at the cursor's cleaned file location. -/
def getSymbolFromCursor (c : CursorData) : Option symbolInfo :=
  if c.isNull then none
  else
    some
      { name := c.spelling
        usr := c.usr
        loc := { File := goClean c.file, Line := c.line, Col := c.col } }

/-- The switch of parse.go lines 219-249, classifying one visited cursor of
kind `k` with data `d`, definition cursor `defn`, referenced cursor `refd`
and included file `incf`, where `cur` is the already-built symbol record of
the cursor. -/
def visitKind (db : symbolsTUDB) (k : CursorKind) (d defn refd : CursorData)
    (incf : String) (cur : symbolInfo) : symbolsTUDB :=
  match k with
  | .FunctionDecl | .StructDecl | .FieldDecl | .TypedefDecl | .EnumDecl | .EnumConstantDecl =>
    if !defn.isNull then
      match getSymbolFromCursor defn with
      | some definiens => db.InsertSymbolDeclWithDef cur definiens
      | none => db
    else db.InsertSymbolDecl cur
  | .MacroDefinition => db.InsertSymbolDeclWithDef cur cur
  | .VarDecl => db.InsertSymbolDecl cur
  | .ParmDecl => if d.spelling ≠ "" then db.InsertSymbolDecl cur else db
  | .CallExpr => db.InsertSymbolUse cur (getSymbolFromCursor refd) true
  | .DeclRefExpr | .TypeRef | .MemberRefExpr | .MacroExpansion =>
    db.InsertSymbolUse cur (getSymbolFromCursor refd) false
  | .InclusionDirective => db.InsertHeader d.spelling incf
  | .Other => db

mutual
/-- parse.go lines 197-252, `visitNode`: a null cursor is skipped
(`ChildVisit_Continue`); otherwise its symbol record is built; a cursor whose
cleaned location file is empty or `.` is skipped without recursion
(`ChildVisit_Continue`); otherwise the switch records it and the visit
recurses into the children (`ChildVisit_Recurse`). -/
def visitNode (db : symbolsTUDB) : Cursor → symbolsTUDB
  | .mk d k defn refd incf ch =>
    if d.isNull then db
    else
      match getSymbolFromCursor d with
      | none => db
      | some cur =>
        if cur.loc.File = "" ∨ cur.loc.File = "." then db
        else visitChildren (visitKind db k d defn refd incf cur) ch

/-- Visit a list of sibling cursors in order, threading the snapshot. -/
def visitChildren (db : symbolsTUDB) : CursorList → symbolsTUDB
  | .nil => db
  | .cons c cs => visitChildren (visitNode db c) cs
end

/-- parse.go lines 183-257, `Parse`: look up the file's compilation
arguments (empty when absent), obtain the translation unit from the AST
oracle, and visit the children of the translation-unit cursor
(`tu.TranslationUnitCursor().Visit(visitNode)`), starting from the snapshot
created with the file's name and modification time.  `oracle` stands for
`clang.ParseTranslationUnit` plus `tu.File(file).Time()`, which are outside
the embedded code: it maps the file and its argument list to the root cursor
and the timestamp. -/
def Parse (cas : List (String × List String)) (oracle : String → List String → Cursor × Int)
    (file : String) : symbolsTUDB :=
  match oracle file (parseArgs cas file) with
  | (tu, ftime) =>
    match tu with
    | .mk _ _ _ _ _ ch => visitChildren (newSymbolsTUDB file ftime) ch

/-! ## files.go: the parse scheduler

The scheduler state of files.go consists of the maps `inFlight` and
`toParseMap` (Go `map[string]bool`, embedded as duplicate-free key lists),
the FIFO `toParseQueue` (Go `container/list`, embedded as a list), and the
database of committed snapshots (`db.InsertTUDB`, embedded as the append-only
list `committed`; `InsertTUDB` itself lives in symbols-db.go, outside the
given sources, and the spec describes it as committing the snapshot).

All scheduler mutation happens on the single `handleFiles` goroutine
(files.go lines 280-325).  Dispatch (`parseFile <- filePath`) and completion
(`<-doneFile`) go through unbuffered channels served by exactly
`nIndexingThreads` worker goroutines (`parseFiles`, lines 268-278), so the
embedding also tracks `parsing`: the multiset (list) of files held by busy
workers — received from `parseFile` and not yet delivered to `doneFile`.

A send on `parseFile` completes only when an idle worker is at its receive.
If the event loop sends while every worker is busy, the loop blocks; every
worker that finishes then blocks sending on `doneFile` (whose only receiver
is the blocked loop), so no scheduler state changes ever again.  The
embedding marks this permanently-blocked situation with `stuck`; no step
leaves a stuck state. -/

/-- Go map-key insertion for a `map[string]bool` used as a set:
`m[k] = true` adds the key only when absent. -/
def setInsert (l : List String) (a : String) : List String :=
  if a ∈ l then l else a :: l

/-- The scheduler state owned by `handleFiles`. -/
structure SchedState where
  inFlight : List String
  toParseMap : List String
  toParseQueue : List String
  parsing : List String
  committed : List symbolsTUDB
  stuck : Bool
deriving DecidableEq

/-- The state built by `startFilesHandler` (files.go lines 369-371): all
structures empty. -/
def initialSchedState : SchedState :=
  ⟨[], [], [], [], [], false⟩

/-- files.go lines 141-149, `queueFileToParse`, for worker count `n`
(`nIndexingThreads`): if fewer than `n` files are marked in-flight and the
file is not one of them, mark it in-flight and send it on `parseFile` — the
send rendezvouses with an idle worker when one exists (`parsing` grows),
and otherwise blocks the event loop forever (`stuck`).  Otherwise, if the
file is not marked queued, mark it queued and append it to the backlog. -/
def queueFileToParse (s : SchedState) (filePath : String) (n : Nat) : SchedState :=
  if s.inFlight.length < n ∧ filePath ∉ s.inFlight then
    if s.parsing.length < n then
      { s with inFlight := setInsert s.inFlight filePath
               parsing := filePath :: s.parsing }
    else
      { s with inFlight := setInsert s.inFlight filePath, stuck := true }
  else if filePath ∉ s.toParseMap then
    { s with toParseMap := setInsert s.toParseMap filePath
             toParseQueue := s.toParseQueue ++ [filePath] }
  else s

/-- files.go lines 157-174, `doneFileToParse`, processing a snapshot `t`
delivered on `doneFile`.  The delivering worker goes idle (one copy of
`t.File` leaves `parsing`).  If `t.File` is not marked queued the snapshot is
committed (`db.InsertTUDB`).  The in-flight mark of `t.File` is deleted.
Then, if the backlog is non-empty, its head is popped, its queued mark
cleared, its in-flight mark set, and it is sent on `parseFile` — the worker
that just delivered is idle, so this send always rendezvouses. -/
def doneFileToParse (s : SchedState) (t : symbolsTUDB) : SchedState :=
  let committed2 := if t.File ∉ s.toParseMap then s.committed ++ [t] else s.committed
  let parsing2 := s.parsing.erase t.File
  let inFlight2 := s.inFlight.erase t.File
  match s.toParseQueue with
  | [] =>
    { s with committed := committed2, parsing := parsing2, inFlight := inFlight2 }
  | filePath :: rest =>
    { s with committed := committed2
             toParseQueue := rest
             toParseMap := s.toParseMap.erase filePath
             inFlight := setInsert inFlight2 filePath
             parsing := filePath :: parsing2 }

/-- One event processed by the `handleFiles` loop with worker count `n`, as
far as the scheduler state is concerned: either some event handler requests a
parse (`queueFileToParse`, reached from file/dir change events, discovery and
header propagation), or a worker that holds `t.File` finishes parsing and
delivers its snapshot (`doneFileToParse`).  A permanently blocked loop
(`stuck`) processes no further event. -/
inductive SchedStep (n : Nat) : SchedState → SchedState → Prop
  | request (s : SchedState) (f : String) (hs : s.stuck = false) :
      SchedStep n s (queueFileToParse s f n)
  | complete (s : SchedState) (t : symbolsTUDB) (hs : s.stuck = false)
      (h : t.File ∈ s.parsing) :
      SchedStep n s (doneFileToParse s t)

/-- The scheduler states reachable from the empty start state by any
sequence of request and completion events. -/
inductive SchedReach (n : Nat) : SchedState → Prop
  | init : SchedReach n initialSchedState
  | step {s s' : SchedState} : SchedReach n s → SchedStep n s s' → SchedReach n s'

/-- The backlog bookkeeping invariant: the Go maps have no duplicate keys,
the queue has no duplicate entries, and the queued-mark map `toParseMap`
holds exactly the members of `toParseQueue`. -/
def QInv (s : SchedState) : Prop :=
  s.toParseMap.Nodup ∧ s.toParseQueue.Nodup ∧
    ∀ f, f ∈ s.toParseMap ↔ f ∈ s.toParseQueue

/-- The worker pool invariant: the in-flight map keys are distinct and at
most `n` many, at most `n` workers are busy, and — as long as the event loop
is not permanently blocked — every in-flight file is held by some busy
worker. -/
def PInv (n : Nat) (s : SchedState) : Prop :=
  s.inFlight.Nodup ∧ s.inFlight.length ≤ n ∧ s.parsing.length ≤ n ∧
    (s.stuck = false → ∀ f ∈ s.inFlight, f ∈ s.parsing)

/-! ## Definitions used to state the claims -/

/-- A location file name is in-tree by the visitor's test (parse.go
lines 205-208) when it is neither empty nor the current-directory marker. -/
def fileOkB (f : String) : Bool :=
  !(f == "" || f == ".")

/-- Every symbol record emitted for a visited cursor (declaration-only
records, the declaration side of declaration-with-definition records, and
the use-site side of use records) has an in-tree location file. -/
def sdbOkB (t : symbolsTUDB) : Bool :=
  t.decls.all (fun sym => fileOkB sym.loc.File) &&
    t.declDefs.all (fun p => fileOkB p.1.loc.File) &&
    t.uses.all (fun u => fileOkB u.1.loc.File)

/-- Stated from the spec's words (for comparison with the code, not taken
from it): a file path lies inside the indexed tree when it extends one of
the indexed root directories. -/
def specInTree (roots : List String) (f : String) : Bool :=
  roots.any (fun r => hasPre r f)

/-- The data of a null cursor. -/
def nullCursorData : CursorData :=
  ⟨true, "", "", "", 0, 0⟩

/-- A variable-declaration cursor resident in a system header outside any
indexed root. -/
def sysHdrCursor : Cursor :=
  .mk ⟨false, "x", "c:@x", "/usr/include/x.h", 3, 4⟩ .VarDecl
    nullCursorData nullCursorData "" .nil

/-- A translation-unit root whose only child is `sysHdrCursor`. -/
def sysHdrTU : Cursor :=
  .mk nullCursorData .Other nullCursorData nullCursorData ""
    (.cons sysHdrCursor .nil)

/-- An AST oracle returning `sysHdrTU` with timestamp 0 for every input. -/
def sysHdrOracle : String → List String → Cursor × Int :=
  fun _ _ => (sysHdrTU, 0)

/-- A root whose compilation database file is missing. -/
def fsMissing : String → openResult :=
  fun _ => .missing

/-- A root whose compilation database file cannot be opened for permissions. -/
def fsPerm : String → openResult :=
  fun _ => .permDenied

/-- A root whose compilation database file holds malformed JSON. -/
def fsBad : String → openResult :=
  fun _ => .malformed

/-- The scheduler state reached (with two workers) by requesting `a`, then
`a` again while the first parse of `a` is running, then `b`, and processing
the completed parse of `b`: the backlog head `a` is popped and dispatched
while the first parse of `a` is still running. -/
def dupDispatchState : SchedState :=
  doneFileToParse
    (queueFileToParse (queueFileToParse (queueFileToParse initialSchedState "a" 2) "a" 2) "b" 2)
    ⟨"b", 0, [], [], [], []⟩

/-- The scheduler state reached (with two workers) by requesting `a`, `b`,
then `a` and `b` again (both become backlog entries), and processing the
completed parse of `b`: the backlog head `a` is popped while still
in flight, leaving `b` queued but not in flight with a free slot. -/
def requeueDispatchState : SchedState :=
  doneFileToParse
    (queueFileToParse
      (queueFileToParse (queueFileToParse (queueFileToParse initialSchedState "a" 2) "b" 2)
        "a" 2)
      "b" 2)
    ⟨"b", 0, [], [], [], []⟩

/-- A command string ends in a dangling include/define flag when its last
whitespace-separated token is exactly `-D` or exactly `-I` — the only
tokens whose processing reads `argsList[i+1]`. -/
def bareDangling (command : String) : Bool :=
  (goFields command).getLast? == some "-D" || (goFields command).getLast? == some "-I"

/-! ## Scheduler invariants -/

theorem mem_setInsert {l : List String} {a b : String} :
    b ∈ setInsert l a ↔ b = a ∨ b ∈ l := by
  unfold setInsert
  split
  · rename_i ha
    constructor
    · exact Or.inr
    · rintro (rfl | h)
      · exact ha
      · exact h
  · simp [List.mem_cons]

theorem nodup_setInsert {l : List String} (a : String) (h : l.Nodup) :
    (setInsert l a).Nodup := by
  unfold setInsert
  split
  · exact h
  · exact List.nodup_cons.mpr ⟨by assumption, h⟩

theorem length_setInsert_le (l : List String) (a : String) :
    (setInsert l a).length ≤ l.length + 1 := by
  unfold setInsert
  split
  · exact Nat.le_succ _
  · exact Nat.le_refl _

theorem qinv_queueFileToParse {s : SchedState} {f : String} {n : Nat} (h : QInv s) :
    QInv (queueFileToParse s f n) := by
  obtain ⟨hm, hq, hiff⟩ := h
  unfold queueFileToParse
  split
  · split
    · exact ⟨hm, hq, hiff⟩
    · exact ⟨hm, hq, hiff⟩
  · split
    · rename_i hnm
      have hnq : f ∉ s.toParseQueue := fun hf => hnm ((hiff f).mpr hf)
      refine ⟨nodup_setInsert f hm, ?_, ?_⟩
      · rw [List.nodup_append]
        exact ⟨hq, List.nodup_singleton f, by simpa using hnq⟩
      · intro g
        rw [mem_setInsert, hiff g]
        simp [List.mem_append, or_comm]
    · exact ⟨hm, hq, hiff⟩

theorem qinv_doneFileToParse {s : SchedState} {t : symbolsTUDB} (h : QInv s) :
    QInv (doneFileToParse s t) := by
  obtain ⟨hm, hq, hiff⟩ := h
  cases hqe : s.toParseQueue with
  | nil =>
    simp only [doneFileToParse, hqe]
    exact ⟨hm, by rw [hqe] at hq; exact hq, fun g => by rw [hiff g, hqe]⟩
  | cons f0 rest =>
    simp only [doneFileToParse, hqe]
    rw [hqe] at hq
    have hf0 : f0 ∉ rest := (List.nodup_cons.mp hq).1
    have hrest : rest.Nodup := (List.nodup_cons.mp hq).2
    refine ⟨hm.erase f0, hrest, ?_⟩
    intro g
    show g ∈ s.toParseMap.erase f0 ↔ g ∈ rest
    rw [hm.mem_erase_iff, hiff g, hqe]
    constructor
    · rintro ⟨hne, hg⟩
      rcases List.mem_cons.mp hg with rfl | hg
      · exact absurd rfl hne
      · exact hg
    · intro hg
      exact ⟨fun e => hf0 (e ▸ hg), List.mem_cons_of_mem _ hg⟩

theorem qinv_reach {n : Nat} {s : SchedState} (h : SchedReach n s) : QInv s := by
  induction h with
  | init => exact ⟨List.nodup_nil, List.nodup_nil, fun f => by simp [initialSchedState]⟩
  | step _ hstep ih =>
    cases hstep with
    | request f hs => exact qinv_queueFileToParse ih
    | complete t hs hp => exact qinv_doneFileToParse ih

theorem pinv_queueFileToParse {n : Nat} {s : SchedState} {f : String} (h : PInv n s) :
    PInv n (queueFileToParse s f n) := by
  obtain ⟨h1, h2, h3, h4⟩ := h
  unfold queueFileToParse
  split
  · rename_i hA
    obtain ⟨hlt, hnm⟩ := hA
    split
    · rename_i hB
      refine ⟨nodup_setInsert f h1, ?_, ?_, ?_⟩
      · exact le_trans (length_setInsert_le _ _) hlt
      · simpa [List.length_cons] using hB
      · intro hs g hg
        rcases mem_setInsert.mp hg with rfl | hg
        · exact List.mem_cons_self _ _
        · exact List.mem_cons_of_mem _ (h4 hs g hg)
    · refine ⟨nodup_setInsert f h1, le_trans (length_setInsert_le _ _) hlt, h3, ?_⟩
      intro hs
      simp at hs
  · split
    · exact ⟨h1, h2, h3, h4⟩
    · exact ⟨h1, h2, h3, h4⟩

theorem pinv_doneFileToParse {n : Nat} {s : SchedState} {t : symbolsTUDB}
    (h : PInv n s) (hst : s.stuck = false) (hf : t.File ∈ s.parsing) :
    PInv n (doneFileToParse s t) := by
  obtain ⟨h1, h2, h3, h4⟩ := h
  cases hqe : s.toParseQueue with
  | nil =>
    simp only [doneFileToParse, hqe]
    refine ⟨h1.erase _, le_trans (List.length_erase_le _ _) h2,
      le_trans (List.length_erase_le _ _) h3, ?_⟩
    intro hs g hg
    obtain ⟨hne, hg⟩ := h1.mem_erase_iff.mp hg
    exact (List.mem_erase_of_ne hne).mpr (h4 hst g hg)
  | cons f0 rest =>
    simp only [doneFileToParse, hqe]
    have hpar : (f0 :: s.parsing.erase t.File).length ≤ n := by
      have := List.length_erase_add_one hf
      simpa [List.length_cons, this] using h3
    refine ⟨nodup_setInsert f0 (h1.erase _), ?_, hpar, ?_⟩
    · by_cases hfi : t.File ∈ s.inFlight
      · have hlen := List.length_erase_add_one hfi
        calc (setInsert (s.inFlight.erase t.File) f0).length
            ≤ (s.inFlight.erase t.File).length + 1 := length_setInsert_le _ _
          _ = s.inFlight.length := hlen
          _ ≤ n := h2
      · rw [List.erase_of_not_mem hfi]
        unfold setInsert
        split
        · exact h2
        · rw [List.length_cons]
          rcases Nat.lt_or_ge s.inFlight.length n with hlt | hge
          · exact hlt
          · exfalso
            have hlen : s.inFlight.length = n := le_antisymm h2 hge
            have hsub : s.inFlight.toFinset ⊆ s.parsing.toFinset := fun g hg =>
              List.mem_toFinset.mpr (h4 hst g (List.mem_toFinset.mp hg))
            have hc1 : s.inFlight.toFinset.card = n := by
              rw [List.toFinset_card_of_nodup h1, hlen]
            have hc2 : s.parsing.toFinset.card ≤ s.inFlight.toFinset.card := by
              rw [hc1]
              exact le_trans (List.toFinset_card_le _) h3
            have heqset := Finset.eq_of_subset_of_card_le hsub hc2
            have : t.File ∈ s.inFlight.toFinset := heqset ▸ List.mem_toFinset.mpr hf
            exact hfi (List.mem_toFinset.mp this)
    · intro hs g hg
      rcases mem_setInsert.mp hg with rfl | hg
      · exact List.mem_cons_self _ _
      · obtain ⟨hne, hg⟩ := h1.mem_erase_iff.mp hg
        exact List.mem_cons_of_mem _ ((List.mem_erase_of_ne hne).mpr (h4 hst g hg))

theorem pinv_reach {n : Nat} {s : SchedState} (h : SchedReach n s) : PInv n s := by
  induction h with
  | init =>
    exact ⟨List.nodup_nil, Nat.zero_le _, Nat.zero_le _, fun _ g hg => by simp [initialSchedState] at hg⟩
  | step _ hstep ih =>
    cases hstep with
    | request f hs => exact pinv_queueFileToParse ih
    | complete t hs hp => exact pinv_doneFileToParse ih hs hp

/-! ## Visitor emission lemmas -/

theorem sdbOkB_insertDecl {db : symbolsTUDB} {cur : symbolInfo}
    (h : sdbOkB db = true) (hc : fileOkB cur.loc.File = true) :
    sdbOkB (db.InsertSymbolDecl cur) = true := by
  unfold sdbOkB at h
  unfold sdbOkB symbolsTUDB.InsertSymbolDecl
  simp only [Bool.and_eq_true] at h ⊢
  refine ⟨?_, h.2⟩
  rw [List.all_append]
  simp [h.1, hc]

theorem sdbOkB_insertDeclWithDef {db : symbolsTUDB} {cur definiens : symbolInfo}
    (h : sdbOkB db = true) (hc : fileOkB cur.loc.File = true) :
    sdbOkB (db.InsertSymbolDeclWithDef cur definiens) = true := by
  unfold sdbOkB at h
  unfold sdbOkB symbolsTUDB.InsertSymbolDeclWithDef
  simp only [Bool.and_eq_true] at h ⊢
  refine ⟨⟨h.1.1, ?_⟩, h.2⟩
  rw [List.all_append]
  simp [h.1.2, hc]

theorem sdbOkB_insertUse {db : symbolsTUDB} {cur : symbolInfo}
    {dec : Option symbolInfo} {isCall : Bool}
    (h : sdbOkB db = true) (hc : fileOkB cur.loc.File = true) :
    sdbOkB (db.InsertSymbolUse cur dec isCall) = true := by
  unfold sdbOkB at h
  unfold sdbOkB symbolsTUDB.InsertSymbolUse
  simp only [Bool.and_eq_true] at h ⊢
  refine ⟨h.1, ?_⟩
  rw [List.all_append]
  simp [h.2, hc]

theorem sdbOkB_insertHeader {db : symbolsTUDB} {headName incFile : String}
    (h : sdbOkB db = true) :
    sdbOkB (db.InsertHeader headName incFile) = true := by
  unfold sdbOkB at h
  unfold sdbOkB symbolsTUDB.InsertHeader
  exact h

theorem visitKind_declGroup_ok {db : symbolsTUDB} {defn : CursorData} {cur : symbolInfo}
    (h : sdbOkB db = true) (hc : fileOkB cur.loc.File = true) :
    sdbOkB
      (if (!defn.isNull) = true then
        match getSymbolFromCursor defn with
        | some definiens => db.InsertSymbolDeclWithDef cur definiens
        | none => db
      else db.InsertSymbolDecl cur) = true := by
  split
  · split
    · exact sdbOkB_insertDeclWithDef h hc
    · exact h
  · exact sdbOkB_insertDecl h hc

theorem visitKind_ok {db : symbolsTUDB} {k : CursorKind} {d defn refd : CursorData}
    {incf : String} {cur : symbolInfo}
    (h : sdbOkB db = true) (hc : fileOkB cur.loc.File = true) :
    sdbOkB (visitKind db k d defn refd incf cur) = true := by
  cases k with
  | FunctionDecl => exact visitKind_declGroup_ok h hc
  | StructDecl => exact visitKind_declGroup_ok h hc
  | FieldDecl => exact visitKind_declGroup_ok h hc
  | TypedefDecl => exact visitKind_declGroup_ok h hc
  | EnumDecl => exact visitKind_declGroup_ok h hc
  | EnumConstantDecl => exact visitKind_declGroup_ok h hc
  | MacroDefinition => exact sdbOkB_insertDeclWithDef h hc
  | VarDecl => exact sdbOkB_insertDecl h hc
  | ParmDecl =>
    show sdbOkB (if d.spelling ≠ "" then db.InsertSymbolDecl cur else db) = true
    split
    · exact sdbOkB_insertDecl h hc
    · exact h
  | CallExpr => exact sdbOkB_insertUse h hc
  | DeclRefExpr => exact sdbOkB_insertUse h hc
  | TypeRef => exact sdbOkB_insertUse h hc
  | MemberRefExpr => exact sdbOkB_insertUse h hc
  | MacroExpansion => exact sdbOkB_insertUse h hc
  | InclusionDirective => exact sdbOkB_insertHeader h
  | Other => exact h

mutual

theorem visitNode_ok : ∀ (db : symbolsTUDB) (c : Cursor),
    sdbOkB db = true → sdbOkB (visitNode db c) = true
  | db, .mk d k defn refd incf ch, h => by
    unfold visitNode
    split
    · exact h
    · split
      · exact h
      · rename_i cur heq
        split
        · exact h
        · rename_i hfile
          push_neg at hfile
          refine visitChildren_ok _ ch (visitKind_ok h ?_)
          simp [fileOkB, hfile.1, hfile.2]

theorem visitChildren_ok : ∀ (db : symbolsTUDB) (cs : CursorList),
    sdbOkB db = true → sdbOkB (visitChildren db cs) = true
  | _, .nil, h => h
  | db, .cons c cs, h => visitChildren_ok (visitNode db c) cs (visitNode_ok db c h)

end

/-! ## Totality of the argument extraction away from dangling flags -/

theorem cleanStep_true_no_dd {acc : List String} (h : ".." ∉ acc) (c : String) :
    ".." ∉ cleanStep true acc c := by
  unfold cleanStep
  split
  · rename_i hc
    match acc with
    | [] => simp
    | top :: rest =>
      have htop : top ≠ ".." := fun e => h (e ▸ List.mem_cons_self top rest)
      simp only [if_neg htop]
      exact fun hm => h (List.mem_cons_of_mem top hm)
  · rename_i hc
    intro hm
    rcases List.mem_cons.mp hm with e | hm
    · exact hc e.symm
    · exact h hm

theorem foldl_cleanStep_true_no_dd (comps : List String) :
    ∀ acc : List String, ".." ∉ acc → ".." ∉ comps.foldl (cleanStep true) acc := by
  induction comps with
  | nil => exact fun acc h => h
  | cons c cs ih => exact fun acc h => ih _ (cleanStep_true_no_dd h c)

/-- The cleaned element list of an absolute path never contains `..`. -/
theorem cleanParts_abs_no_dd {p : String} (h : goIsAbs p = true) :
    ".." ∉ (cleanParts p).2 := by
  unfold cleanParts cleanStack
  rw [h]
  intro hm
  rw [List.mem_reverse] at hm
  exact foldl_cleanStep_true_no_dd (pathComps p) [] (by simp) hm

theorem dropCommon_fst_subset :
    ∀ (a b : List String) {x : String}, x ∈ (dropCommon a b).1 → x ∈ a := by
  intro a
  induction a with
  | nil => intro b x h; exact absurd h (by cases b <;> simp [dropCommon])
  | cons y ys ih =>
    intro b x h
    cases b with
    | nil => exact h
    | cons z zs =>
      by_cases hyz : y = z
      · rw [dropCommon, if_pos hyz] at h
        exact List.mem_cons_of_mem _ (ih zs h)
      · rwa [dropCommon, if_neg hyz] at h

/-- Go `filepath.Rel` between two absolute paths never errors. -/
theorem goRel_abs_isSome {base targ : String} (hb : goIsAbs base = true)
    (ht : goIsAbs targ = true) : (goRel base targ).isSome = true := by
  unfold goRel
  split
  · rfl
  · have h1 : ¬((cleanParts base).1 ≠ (cleanParts targ).1) := by
      show ¬(goIsAbs base ≠ goIsAbs targ)
      rw [hb, ht]
      simp
    rw [if_neg h1]
    split
    · rename_i hdd
      exfalso
      have hx : ".." ∈ (dropCommon (cleanParts base).2 (cleanParts targ).2).1 :=
        List.mem_of_mem_head? (by rw [hdd]; rfl)
      exact cleanParts_abs_no_dd hb (dropCommon_fst_subset _ _ hx)
    · rfl

/-- The function `fixCompDirArg` never panics when the working directory is absolute. -/
theorem fixCompDirArg_isSome {argDir path cwd : String} (hcwd : goIsAbs cwd = true) :
    (fixCompDirArg argDir path cwd).isSome = true := by
  unfold fixCompDirArg
  split
  · split <;> rfl
  · split
    · rename_i hpath habs
      have hsome := goRel_abs_isSome hcwd habs
      rcases hrel : goRel cwd argDir with _ | r
      · rw [hrel] at hsome
        simp at hsome
      · simp only [hrel]
        rfl
    · rfl

/-- The extraction loop succeeds whenever the token list does not end in a
bare `-D` or `-I` and the working directory is absolute. -/
theorem getCompArgsGo_isSome (path cwd : String) (hcwd : goIsAbs cwd = true) :
    ∀ (l args : List String),
      l.getLast? ≠ some "-D" → l.getLast? ≠ some "-I" →
      (getCompArgsGo path cwd l args).isSome = true := by
  intro l
  induction l with
  | nil => intro args _ _; rfl
  | cons arg rest ih =>
    intro args hD hI
    cases rest with
    | nil =>
      have hnD : arg ≠ "-D" := fun e => hD (by simp [e])
      have hnI : arg ≠ "-I" := fun e => hI (by simp [e])
      unfold getCompArgsGo
      rw [if_neg hnD, if_neg hnI]
      split
      · rfl
      · split
        · have hsome := @fixCompDirArg_isSome (stringsReplace1 arg "-I" "") path cwd hcwd
          rcases hfix : fixCompDirArg (stringsReplace1 arg "-I" "") path cwd with _ | ad
          · rw [hfix] at hsome
            simp at hsome
          · simp only [hfix]
            rfl
        · rfl
    | cons r rs =>
      have hD2 : (r :: rs).getLast? ≠ some "-D" := by
        rwa [List.getLast?_cons_cons] at hD
      have hI2 : (r :: rs).getLast? ≠ some "-I" := by
        rwa [List.getLast?_cons_cons] at hI
      unfold getCompArgsGo
      split
      · exact ih _ hD2 hI2
      · split
        · exact ih _ hD2 hI2
        · split
          · have hsome := @fixCompDirArg_isSome r path cwd hcwd
            rcases hfix : fixCompDirArg r path cwd with _ | ad
            · rw [hfix] at hsome
              simp at hsome
            · simp only [hfix]
              exact ih _ hD2 hI2
          · split
            · have hsome :=
                @fixCompDirArg_isSome (stringsReplace1 arg "-I" "") path cwd hcwd
              rcases hfix : fixCompDirArg (stringsReplace1 arg "-I" "") path cwd with _ | ad
              · rw [hfix] at hsome
                simp at hsome
              · simp only [hfix]
                exact ih _ hD2 hI2
            · exact ih _ hD2 hI2

/-! ## Claims about the parse scheduler -/

/-- C1 counterexample: with one worker, requesting `a` and then requesting
`a` again while its parse is running yields a reachable state in which `a`
is simultaneously in the In-Flight Set and in the Backlog Queue membership
set — refuting "never both". -/
theorem C1_counterexample :
    SchedReach 1 (queueFileToParse (queueFileToParse initialSchedState "a" 1) "a" 1)
    ∧ "a" ∈ (queueFileToParse (queueFileToParse initialSchedState "a" 1) "a" 1).inFlight
    ∧ "a" ∈ (queueFileToParse (queueFileToParse initialSchedState "a" 1) "a" 1).toParseMap :=
  ⟨SchedReach.step
      (SchedReach.step SchedReach.init (SchedStep.request initialSchedState "a" rfl))
      (SchedStep.request _ "a" (by decide)),
    by decide, by decide⟩

/-- C1 (amended): in every reachable scheduler state the backlog counts no
path twice — the queue is duplicate-free and the backlog membership set
holds exactly the queue's members — but a path re-requested while its parse
is in flight is a member of both the In-Flight Set and the Backlog Queue
(that double membership is the staleness marker used on completion). -/
theorem C1_theorem {n : Nat} {s : SchedState} (h : SchedReach n s) :
    s.toParseQueue.Nodup ∧ ∀ f, f ∈ s.toParseMap ↔ f ∈ s.toParseQueue :=
  ⟨(qinv_reach h).2.1, (qinv_reach h).2.2⟩

/-- C1 witness: the amended invariant evaluated at the initial state. -/
theorem C1_witness :
    initialSchedState.toParseQueue.Nodup
    ∧ ("a" ∈ initialSchedState.toParseMap ↔ "a" ∈ initialSchedState.toParseQueue) :=
  ⟨(C1_theorem (SchedReach.init : SchedReach 1 initialSchedState)).1,
    (C1_theorem (SchedReach.init : SchedReach 1 initialSchedState)).2 "a"⟩

/-- C2 counterexample: with two workers, after requests `a`, `a`, `b` and
the completion of `b`, `doneFileToParse` pops the backlog head `a` and
dispatches it although the first parse of `a` has not completed: two parses
of `a` are concurrently held by workers. -/
theorem C2_counterexample :
    SchedReach 2 dupDispatchState ∧ dupDispatchState.parsing = ["a", "a"] :=
  ⟨SchedReach.step
      (SchedReach.step
        (SchedReach.step
          (SchedReach.step SchedReach.init (SchedStep.request initialSchedState "a" rfl))
          (SchedStep.request _ "a" (by decide)))
        (SchedStep.request _ "b" (by decide)))
      (SchedStep.complete _ ⟨"b", 0, [], [], [], []⟩ (by decide) (by decide)),
    by decide⟩

/-- C2 (amended): `queueFileToParse` never dispatches a path that is already
marked in-flight (a request while in flight only marks the backlog); the
claimed at-most-one-parse-per-path property nevertheless fails, because on
completion the popped backlog head is dispatched even when it is still in
flight (see the counterexample). -/
theorem C2_theorem (s : SchedState) (f : String) (n : Nat) (h : f ∈ s.inFlight) :
    (queueFileToParse s f n).parsing = s.parsing := by
  unfold queueFileToParse
  rw [if_neg (fun hx => hx.2 h)]
  split <;> rfl

/-- C2 witness: a request for the in-flight path `a` dispatches nothing. -/
theorem C2_witness :
    "a" ∈ (queueFileToParse initialSchedState "a" 1).inFlight
    ∧ (queueFileToParse (queueFileToParse initialSchedState "a" 1) "a" 1).parsing
        = (queueFileToParse initialSchedState "a" 1).parsing :=
  ⟨by decide, C2_theorem _ "a" 1 (by decide)⟩

/-- C3: processing a completed snapshot commits it to the database exactly
when the snapshot's file is not in the backlog membership set at that
moment; a stale completion leaves the committed list unchanged. -/
theorem C3_theorem (s : SchedState) (t : symbolsTUDB) :
    (doneFileToParse s t).committed =
      if t.File ∈ s.toParseMap then s.committed else s.committed ++ [t] := by
  cases hqe : s.toParseQueue <;>
    simp only [doneFileToParse, hqe] <;>
    by_cases h : t.File ∈ s.toParseMap <;>
    simp [h]

/-- C6: in every reachable scheduler state, the In-Flight Set has at most
as many members as there are workers. -/
theorem C6_theorem {n : Nat} {s : SchedState} (h : SchedReach n s) :
    s.inFlight.length ≤ n :=
  (pinv_reach h).2.1

/-- C6 witness: the bound evaluated after one dispatching request with one
worker. -/
theorem C6_witness : (queueFileToParse initialSchedState "a" 1).inFlight.length ≤ 1 :=
  C6_theorem (SchedReach.step SchedReach.init (SchedStep.request initialSchedState "a" rfl))

/-- C7 counterexample: in the reachable state where `b` is queued but no
longer in flight while a worker slot is free, a further request for `b`
is not a no-op — it dispatches `b` while `b` stays in the backlog. -/
theorem C7_counterexample :
    SchedReach 2 requeueDispatchState
    ∧ "b" ∈ requeueDispatchState.toParseMap
    ∧ queueFileToParse requeueDispatchState "b" 2 ≠ requeueDispatchState :=
  ⟨SchedReach.step
      (SchedReach.step
        (SchedReach.step
          (SchedReach.step
            (SchedReach.step SchedReach.init (SchedStep.request initialSchedState "a" rfl))
            (SchedStep.request _ "b" (by decide)))
          (SchedStep.request _ "a" (by decide)))
        (SchedStep.request _ "b" (by decide)))
      (SchedStep.complete _ ⟨"b", 0, [], [], [], []⟩ (by decide) (by decide)),
    by decide, by decide⟩

/-- C7 (amended): a request for a path already in the backlog is a no-op
provided the path cannot be dispatched at that moment — the in-flight set is
full or the path itself is marked in-flight; without that proviso the
request dispatches the path while it stays queued (see the
counterexample). -/
theorem C7_theorem (s : SchedState) (f : String) (n : Nat) (hq : f ∈ s.toParseMap)
    (hblock : n ≤ s.inFlight.length ∨ f ∈ s.inFlight) :
    queueFileToParse s f n = s := by
  have h1 : ¬(s.inFlight.length < n ∧ f ∉ s.inFlight) := by
    rintro ⟨hlt, hni⟩
    rcases hblock with hb | hb
    · exact Nat.not_lt.mpr hb hlt
    · exact hni hb
  have h2 : ¬f ∉ s.toParseMap := fun hx => hx hq
  unfold queueFileToParse
  rw [if_neg h1, if_neg h2]

/-- C7 witness: a repeated request for a queued path while it is marked
in-flight leaves the state unchanged. -/
theorem C7_witness :
    "f" ∈ (⟨["f"], ["f"], ["f"], ["f"], [], false⟩ : SchedState).toParseMap
    ∧ queueFileToParse ⟨["f"], ["f"], ["f"], ["f"], [], false⟩ "f" 1
        = ⟨["f"], ["f"], ["f"], ["f"], [], false⟩ :=
  ⟨by decide, C7_theorem _ "f" 1 (by decide) (Or.inr (by decide))⟩

/-! ## Claims about argument resolution and the cursor visit -/

/-- C4 counterexample: for the spec's example command resolved against the
absolute root `/proj`, the code anchors the relative `-I` directory at the
process working directory, not at `/proj`: run from `/a/b` it produces
`/a/inc`, not the claimed normalized form of `/proj/../inc` (`/inc`). -/
theorem C4_counterexample :
    getCompArgs "gcc -Wall -DFOO -I../inc -c x.c" "/proj" "/a/b"
      = some ["-DFOO", "-I", "/a/inc"]
    ∧ getCompArgs "gcc -Wall -DFOO -I../inc -c x.c" "/proj" "/a/b"
      ≠ some ["-DFOO", "-I", "/inc"] :=
  ⟨by decide, by decide⟩

/-- C4 (amended): `-D` tokens pass through verbatim and `-I` directories are
rewritten while all other tokens are dropped, but a relative `-I` directory
under an absolute root is anchored at the process working directory `cwd`
(via `filepath.Abs`), not at the root: for the example command the result is
`-DFOO`, `-I`, `Clean(Abs(cwd, ../inc))` — which equals the claimed `/inc`
exactly when the daemon runs from `/proj`. -/
theorem C4_theorem :
    (∀ cwd : String, getCompArgs "gcc -Wall -DFOO -I../inc -c x.c" "/proj" cwd
        = some ["-DFOO", "-I", goClean (goAbs cwd "../inc")])
    ∧ getCompArgs "gcc -Wall -DFOO -I../inc -c x.c" "/proj" "/proj"
        = some ["-DFOO", "-I", "/inc"]
    ∧ getCompArgs "gcc -Wall -DFOO -I../inc -c x.c" "/proj" "/a/b"
        = some ["-DFOO", "-I", "/a/inc"] :=
  ⟨fun cwd => rfl, by decide, by decide⟩

/-- C5 counterexample: the visitor performs no indexed-roots check — a
variable declaration resident in `/usr/include/x.h` is recorded in the
snapshot although its file lies outside the indexed root `/proj`. -/
theorem C5_counterexample :
    (Parse [] sysHdrOracle "a.c").decls
      = [⟨"x", "c:@x", ⟨"/usr/include/x.h", 3, 4⟩⟩]
    ∧ specInTree ["/proj"] "/usr/include/x.h" = false :=
  ⟨by rfl, by rfl⟩

/-- C5 (amended): a symbol record is emitted for a visited cursor only when
its cleaned location file is neither empty nor the current-directory marker
`.`; that is the only location filter — no membership test against the
indexed roots is performed, so symbols in any named file (including system
headers outside the roots) are recorded. -/
theorem C5_theorem :
    ∀ (cas : List (String × List String)) (oracle : String → List String → Cursor × Int)
      (file : String), sdbOkB (Parse cas oracle file) = true := by
  intro cas oracle file
  unfold Parse
  rcases hor : oracle file (parseArgs cas file) with ⟨tu, ftime⟩
  cases tu with
  | mk d k defn refd incf ch => exact visitChildren_ok _ ch rfl

/-- C8: the cursor classification of the visitor's switch, kind by kind:
macro definitions are recorded as declaration-with-definition with
themselves as definition; parameter declarations are recorded (declaration
only) exactly when named; call expressions are uses with is-call true of the
referenced entity; direct/type/member references and macro expansions are
uses with is-call false; variable declarations are declaration-only; and the
function/struct/field/typedef/enum/enum-constant kinds are
declaration-with-definition exactly when a non-null definition cursor
exists, declaration-only otherwise. -/
theorem C8_theorem :
    (∀ (db : symbolsTUDB) (d defn refd : CursorData) (incf : String) (cur : symbolInfo),
      visitKind db .MacroDefinition d defn refd incf cur
        = { db with declDefs := db.declDefs ++ [(cur, cur)] })
    ∧ (∀ (db : symbolsTUDB) (d defn refd : CursorData) (incf : String) (cur : symbolInfo),
      visitKind db .ParmDecl d defn refd incf cur
        = if d.spelling ≠ "" then { db with decls := db.decls ++ [cur] } else db)
    ∧ (∀ (db : symbolsTUDB) (d defn refd : CursorData) (incf : String) (cur : symbolInfo),
      visitKind db .CallExpr d defn refd incf cur
        = { db with uses := db.uses ++ [(cur, getSymbolFromCursor refd, true)] })
    ∧ (∀ (db : symbolsTUDB) (d defn refd : CursorData) (incf : String) (cur : symbolInfo),
      visitKind db .DeclRefExpr d defn refd incf cur
        = { db with uses := db.uses ++ [(cur, getSymbolFromCursor refd, false)] })
    ∧ (∀ (db : symbolsTUDB) (d defn refd : CursorData) (incf : String) (cur : symbolInfo),
      visitKind db .TypeRef d defn refd incf cur
        = { db with uses := db.uses ++ [(cur, getSymbolFromCursor refd, false)] })
    ∧ (∀ (db : symbolsTUDB) (d defn refd : CursorData) (incf : String) (cur : symbolInfo),
      visitKind db .MemberRefExpr d defn refd incf cur
        = { db with uses := db.uses ++ [(cur, getSymbolFromCursor refd, false)] })
    ∧ (∀ (db : symbolsTUDB) (d defn refd : CursorData) (incf : String) (cur : symbolInfo),
      visitKind db .MacroExpansion d defn refd incf cur
        = { db with uses := db.uses ++ [(cur, getSymbolFromCursor refd, false)] })
    ∧ (∀ (db : symbolsTUDB) (d defn refd : CursorData) (incf : String) (cur : symbolInfo),
      visitKind db .VarDecl d defn refd incf cur
        = { db with decls := db.decls ++ [cur] })
    ∧ (∀ (db : symbolsTUDB) (d defn refd : CursorData) (incf : String) (cur : symbolInfo),
      visitKind db .FunctionDecl d defn refd incf cur
        = if defn.isNull then { db with decls := db.decls ++ [cur] }
          else { db with declDefs := db.declDefs
            ++ [(cur, ⟨defn.spelling, defn.usr, ⟨goClean defn.file, defn.line, defn.col⟩⟩)] })
    ∧ (∀ (db : symbolsTUDB) (d defn refd : CursorData) (incf : String) (cur : symbolInfo),
      visitKind db .StructDecl d defn refd incf cur
        = if defn.isNull then { db with decls := db.decls ++ [cur] }
          else { db with declDefs := db.declDefs
            ++ [(cur, ⟨defn.spelling, defn.usr, ⟨goClean defn.file, defn.line, defn.col⟩⟩)] })
    ∧ (∀ (db : symbolsTUDB) (d defn refd : CursorData) (incf : String) (cur : symbolInfo),
      visitKind db .FieldDecl d defn refd incf cur
        = if defn.isNull then { db with decls := db.decls ++ [cur] }
          else { db with declDefs := db.declDefs
            ++ [(cur, ⟨defn.spelling, defn.usr, ⟨goClean defn.file, defn.line, defn.col⟩⟩)] })
    ∧ (∀ (db : symbolsTUDB) (d defn refd : CursorData) (incf : String) (cur : symbolInfo),
      visitKind db .TypedefDecl d defn refd incf cur
        = if defn.isNull then { db with decls := db.decls ++ [cur] }
          else { db with declDefs := db.declDefs
            ++ [(cur, ⟨defn.spelling, defn.usr, ⟨goClean defn.file, defn.line, defn.col⟩⟩)] })
    ∧ (∀ (db : symbolsTUDB) (d defn refd : CursorData) (incf : String) (cur : symbolInfo),
      visitKind db .EnumDecl d defn refd incf cur
        = if defn.isNull then { db with decls := db.decls ++ [cur] }
          else { db with declDefs := db.declDefs
            ++ [(cur, ⟨defn.spelling, defn.usr, ⟨goClean defn.file, defn.line, defn.col⟩⟩)] })
    ∧ (∀ (db : symbolsTUDB) (d defn refd : CursorData) (incf : String) (cur : symbolInfo),
      visitKind db .EnumConstantDecl d defn refd incf cur
        = if defn.isNull then { db with decls := db.decls ++ [cur] }
          else { db with declDefs := db.declDefs
            ++ [(cur, ⟨defn.spelling, defn.usr, ⟨goClean defn.file, defn.line, defn.col⟩⟩)] }) := by
  refine ⟨?_, ?_, ?_, ?_, ?_, ?_, ?_, ?_, ?_, ?_, ?_, ?_, ?_, ?_⟩
  · intro db d defn refd incf cur; rfl
  · intro db d defn refd incf cur; rfl
  · intro db d defn refd incf cur; rfl
  · intro db d defn refd incf cur; rfl
  · intro db d defn refd incf cur; rfl
  · intro db d defn refd incf cur; rfl
  · intro db d defn refd incf cur; rfl
  · intro db d defn refd incf cur; rfl
  · intro db d defn refd incf cur
    cases hn : defn.isNull <;>
      simp [visitKind, getSymbolFromCursor, hn, symbolsTUDB.InsertSymbolDecl,
        symbolsTUDB.InsertSymbolDeclWithDef]
  · intro db d defn refd incf cur
    cases hn : defn.isNull <;>
      simp [visitKind, getSymbolFromCursor, hn, symbolsTUDB.InsertSymbolDecl,
        symbolsTUDB.InsertSymbolDeclWithDef]
  · intro db d defn refd incf cur
    cases hn : defn.isNull <;>
      simp [visitKind, getSymbolFromCursor, hn, symbolsTUDB.InsertSymbolDecl,
        symbolsTUDB.InsertSymbolDeclWithDef]
  · intro db d defn refd incf cur
    cases hn : defn.isNull <;>
      simp [visitKind, getSymbolFromCursor, hn, symbolsTUDB.InsertSymbolDecl,
        symbolsTUDB.InsertSymbolDeclWithDef]
  · intro db d defn refd incf cur
    cases hn : defn.isNull <;>
      simp [visitKind, getSymbolFromCursor, hn, symbolsTUDB.InsertSymbolDecl,
        symbolsTUDB.InsertSymbolDeclWithDef]
  · intro db d defn refd incf cur
    cases hn : defn.isNull <;>
      simp [visitKind, getSymbolFromCursor, hn, symbolsTUDB.InsertSymbolDecl,
        symbolsTUDB.InsertSymbolDeclWithDef]

/-- C9: loading the compilation databases: a root whose database file is
missing contributes nothing and is not an error; a permission failure or
malformed JSON aborts (`none`); and a file without a map entry is parsed
with the empty argument list. -/
theorem C9_theorem :
    (∀ (fs : String → openResult) (cwd r : String) (rest : List String),
      fs r = .missing → newParser fs cwd (r :: rest) = newParser fs cwd rest)
    ∧ (∀ (fs : String → openResult) (cwd r : String) (rest : List String),
      fs r = .permDenied → newParser fs cwd (r :: rest) = none)
    ∧ (∀ (fs : String → openResult) (cwd r : String) (rest : List String),
      fs r = .malformed → newParser fs cwd (r :: rest) = none)
    ∧ (∀ (cas : List (String × List String)) (file : String),
      List.lookup file cas = none → parseArgs cas file = []) := by
  refine ⟨?_, ?_, ?_, ?_⟩
  · intro fs cwd r rest h
    simp [newParser, h]
  · intro fs cwd r rest h
    simp [newParser, h]
  · intro fs cwd r rest h
    simp [newParser, h]
  · intro cas file h
    simp [parseArgs, h]

/-- C9 witness: the three loading outcomes and the empty lookup, evaluated
at concrete inputs. -/
theorem C9_witness :
    newParser fsMissing "/w" ["r1"] = newParser fsMissing "/w" []
    ∧ newParser fsPerm "/w" ["r1"] = none
    ∧ newParser fsBad "/w" ["r1"] = none
    ∧ parseArgs [] "x.c" = [] :=
  ⟨C9_theorem.1 fsMissing "/w" "r1" [] rfl, C9_theorem.2.1 fsPerm "/w" "r1" [] rfl,
    C9_theorem.2.2.1 fsBad "/w" "r1" [] rfl, C9_theorem.2.2.2 [] "x.c" rfl⟩

/-- C10: the argument extraction reads one past the end of the token list —
a runtime out-of-range panic in Go, `none` here — exactly when the command
ends in a bare `-D` or `-I`; it is total on all other commands (for an
absolute working directory, as `os.Getwd` returns). -/
theorem C10_theorem :
    getCompArgs "gcc -c x.c -I" "/proj" "/wd" = none
    ∧ getCompArgs "gcc -O2 -D" "/proj" "/wd" = none
    ∧ (∀ (command path cwd : String), goIsAbs cwd = true → bareDangling command = false →
        (getCompArgs command path cwd).isSome = true) := by
  refine ⟨by decide, by decide, ?_⟩
  intro command path cwd hcwd hb
  unfold bareDangling at hb
  rw [Bool.or_eq_false_iff] at hb
  obtain ⟨hb1, hb2⟩ := hb
  apply getCompArgsGo_isSome path cwd hcwd
  · intro e
    rw [e] at hb1
    simp at hb1
  · intro e
    rw [e] at hb2
    simp at hb2

/-- C10 witness: a command with no dangling flag extracts successfully. -/
theorem C10_witness :
    goIsAbs "/wd" = true
    ∧ bareDangling "gcc -DFOO -Iinc x.c" = false
    ∧ (getCompArgs "gcc -DFOO -Iinc x.c" "proj" "/wd").isSome = true :=
  ⟨by decide, by decide,
    C10_theorem.2.2 "gcc -DFOO -Iinc x.c" "proj" "/wd" (by decide) (by decide)⟩

end Navc
